import Mathlib

/-!
# Verification of the `EventList` core (stingray `events.py`)

This file gives a shallow embedding of the `EventList` class of
`src/stingray/events.py` and proves or refutes the frozen claims about it.

Modelling conventions:
* Machine floats are modelled by `ℚ` (exact arithmetic); the claims under
  scrutiny are structural (filtering, sorting, concatenation, interval
  algebra), not about rounding.
* `None`-able attributes become `Option`; code paths that raise a Python
  exception (`TypeError`/`AttributeError`/`IndexError`) are modelled by
  functions returning `Option`/`none`.
* The fields of the `EventList` structure are the attributes exercised by
  the claims; `extra` stands for a user-added per-event column (the
  `bubuattr` of the `apply_mask` doctest).  The reflective attribute
  classifier (`array_attrs`/`meta_attrs`) is additionally modelled
  generically over a name→value registry (`PyObj`, below), mirroring the
  `dir(self)`-based code.
* `np.argsort` is modelled by a concrete (stable) sorting permutation; the
  claims only use that one single permutation reorders every array
  attribute and that the resulting `time` is sorted.
-/

/-- The event-list record: the attributes of `EventList.__init__` touched by
the claims.  `extra` models an arbitrary user-added per-event column. -/
structure EventList where
  time : Option (List ℚ)
  energy : Option (List ℚ)
  pi : Option (List ℚ)
  extra : Option (List ℚ)
  gti : Option (List (ℚ × ℚ))
  mjdref : ℚ
  dt : ℚ
  ncounts : Option ℕ
  mission : Option String
  instr : Option String
  notes : String
  deriving DecidableEq, Repr

/-- Model of `EventList()` with no arguments: every data attribute at its
`__init__` default. -/
def emptyEv : EventList :=
  { time := none, energy := none, pi := none, extra := none, gti := none,
    mjdref := 0, dt := 0, ncounts := none, mission := none, instr := none,
    notes := "" }

/-- Model of `EventList(time=t, ...)` for a plain numeric array: `__init__` stores the
arrays and derives `ncounts = self.time.size` (lines 154-162).  The helper
`interpret_times` (absent from `src/`) is the identity on plain numeric
arrays, which is the only case used here. -/
def EventList.init (time : List ℚ) (energy pi : Option (List ℚ))
    (gti : Option (List (ℚ × ℚ))) (mjdref dt : ℚ) : EventList :=
  { time := some time, energy := energy, pi := pi, extra := none, gti := gti,
    mjdref := mjdref, dt := dt, ncounts := some time.length,
    mission := none, instr := none, notes := "" }

/-- Boolean-mask selection `np.asarray(x)[mask]`: keep the positions where
the mask is `true`, preserving relative order.  (numpy requires the mask to
have the array's length; callers below check that.) -/
def maskList (m : List Bool) (l : List ℚ) : List ℚ :=
  ((l.zip m).filter (fun p => p.2)).map (fun p => p.1)

/-- Model of `np.zeros_like` on a 1-D array of length `n`. -/
def zerosQ (n : ℕ) : List ℚ := List.replicate n 0

/-- Mask an optional attribute the way `apply_mask` does: an attribute is in
`array_attrs()` (hence masked) exactly when its shape equals `time`'s shape,
i.e. (1-D case) its length equals `time`'s length; any other attribute is
carried over unchanged. -/
def maskIfArray (m : List Bool) (tlen : ℕ) : Option (List ℚ) → Option (List ℚ)
  | none => none
  | some l => if l.length = tlen then some (maskList m l) else some l

/-- Model of `EventList.apply_mask(self, mask, inplace)` (lines 618-650).  Both the
copy branch and the in-place branch produce the same attribute values: every
array attribute (same shape as `time`) is masked, every other attribute is
kept.  `none` models the crash when `self.time is None` (`array_attrs`
dereferences `self.time.shape`), and when the mask length does not match the
event count (numpy `IndexError`). -/
def EventList.apply_mask (e : EventList) (m : List Bool) : Option EventList :=
  match e.time with
  | none => none
  | some t =>
    if m.length = t.length then
      some { e with
        time := some (maskList m t),
        energy := maskIfArray m t.length e.energy,
        pi := maskIfArray m t.length e.pi,
        extra := maskIfArray m t.length e.extra }
    else none

/-- The `inplace=True` mode in state-passing form: the pair is
(final state of `self`, returned reference).  The code executes
`new_ev = self` and then mutates, so both components are the same object. -/
def EventList.apply_mask_inplace (e : EventList) (m : List Bool) :
    Option (EventList × EventList) :=
  (e.apply_mask m).map (fun r => (r, r))

/-- Model of `EventList.shift(self, time_shift)` (lines 734-754): deep copy, then
`time += shift` and `gti += shift`.  `none` models the `TypeError` raised
when `time` or `gti` is `None`. -/
def EventList.shift (e : EventList) (d : ℚ) : Option EventList :=
  match e.time, e.gti with
  | some t, some g =>
      some { e with time := some (t.map (fun x => x + d)),
                    gti := some (g.map (fun p => (p.1 + d, p.2 + d))) }
  | _, _ => none

/-- Model of `EventList.change_mjdref(self, new_mjdref)` (lines 713-732). -/
def EventList.change_mjdref (e : EventList) (new_mjdref : ℚ) :
    Option EventList :=
  (e.shift ((e.mjdref - new_mjdref) * 86400)).map
    (fun r => { r with mjdref := new_mjdref })

/-- Model of `np.isclose(a, b, atol=1e-6/86400)` with numpy's default
`rtol = 1e-5`: true iff `|a - b| ≤ atol + rtol * |b|`. -/
def npIsClose (a b : ℚ) : Bool :=
  decide (|a - b| ≤ 1 / 86400000000 + (1 / 100000) * |b|)

/-- Model of `EventList.filter_energy_range(self, energy_range, inplace, use_pi)`
(lines 579-616): build the half-open-range mask over `energy` (or `pi`) and
delegate to `apply_mask`.  `none` models the `TypeError` when the chosen
attribute is `None`. -/
def EventList.filter_energy_range (e : EventList) (lo hi : ℚ)
    (use_pi : Bool) : Option EventList :=
  match (if use_pi then e.pi else e.energy) with
  | none => none
  | some vals =>
      e.apply_mask (vals.map (fun v => decide (lo ≤ v) && decide (v < hi)))

/-! ## Mask Engine: claims C2, C6, C9 -/

/-- Masking with the pointwise image of a predicate over a parallel list of
values selects exactly the positions whose value satisfies the predicate. -/
theorem maskList_map (p : ℚ → Bool) :
    ∀ (t vals : List ℚ),
      maskList (vals.map p) t =
        ((t.zip vals).filter (fun q => p q.2)).map (fun q => q.1)
  | [], _ => by simp [maskList]
  | _ :: _, [] => by simp [maskList]
  | a :: t, v :: vals => by
    have ih := maskList_map p t vals
    unfold maskList at ih ⊢
    by_cases h : p v = true <;> simp [h, ih]

/-- Shared inversion lemma for `apply_mask`: with a present `time` and a
matching mask length, the result is the record with every shape-matching
array attribute masked and everything else untouched. -/
theorem apply_mask_eq (s : EventList) (t : List ℚ) (m : List Bool)
    (ht : s.time = some t) (hm : m.length = t.length) :
    s.apply_mask m = some { s with
      time := some (maskList m t),
      energy := maskIfArray m t.length s.energy,
      pi := maskIfArray m t.length s.pi,
      extra := maskIfArray m t.length s.extra } := by
  unfold EventList.apply_mask
  rw [ht]
  simp [hm]

/-- C2.  For every event list `s` with non-empty `time` and every boolean
mask of matching length, `apply_mask` returns an instance whose `time` is
`s.time[mask]`, whose array attributes (`energy`, `pi`, and the user-added
`extra`, whenever their length matches the event count) are filtered by the
same mask in the same relative order, and whose summary attributes (`gti`,
`mjdref`, `dt`, `ncounts`, `mission`, `instr`, `notes`) are unchanged; the
in-place mode mutates `s` to that same value and returns that mutated
state. -/
theorem claim_C2_apply_mask (s : EventList) (t : List ℚ) (m : List Bool)
    (ht : s.time = some t) (_hne : t ≠ []) (hm : m.length = t.length) :
    ∃ r, s.apply_mask m = some r ∧
      r.time = some (maskList m t) ∧
      (∀ l, s.energy = some l → l.length = t.length →
        r.energy = some (maskList m l)) ∧
      (∀ l, s.pi = some l → l.length = t.length →
        r.pi = some (maskList m l)) ∧
      (∀ l, s.extra = some l → l.length = t.length →
        r.extra = some (maskList m l)) ∧
      r.gti = s.gti ∧ r.mjdref = s.mjdref ∧ r.dt = s.dt ∧
      r.ncounts = s.ncounts ∧ r.mission = s.mission ∧ r.instr = s.instr ∧
      r.notes = s.notes ∧
      s.apply_mask_inplace m = some (r, r) := by
  have hres := apply_mask_eq s t m ht hm
  refine ⟨_, hres, rfl, ?_, ?_, ?_, rfl, rfl, rfl, rfl, rfl, rfl, rfl, ?_⟩
  · intro l hl hlen; simp [hl, maskIfArray, hlen]
  · intro l hl hlen; simp [hl, maskIfArray, hlen]
  · intro l hl hlen; simp [hl, maskIfArray, hlen]
  · unfold EventList.apply_mask_inplace
    rw [hres]
    rfl

/-- The spec's concrete scenario for the Mask Engine: a 3-event stream with
a user-added per-event column `[222, 111, 333]`. -/
def evMaskScenario : EventList :=
  { emptyEv with
    time := some [0, 1, 2],
    extra := some [222, 111, 333],
    mission := some ("nustar") }

/-- Witness for C2: the spec's concrete scenario, mask `[True, True, False]`. -/
theorem claim_C2_apply_mask_witness :
    ∃ r, evMaskScenario.apply_mask [true, true, false] = some r ∧
      r.time = some (maskList [true, true, false] [0, 1, 2]) ∧
      (∀ l, evMaskScenario.energy = some l →
        l.length = ([0, 1, 2] : List ℚ).length →
        r.energy = some (maskList [true, true, false] l)) ∧
      (∀ l, evMaskScenario.pi = some l →
        l.length = ([0, 1, 2] : List ℚ).length →
        r.pi = some (maskList [true, true, false] l)) ∧
      (∀ l, evMaskScenario.extra = some l →
        l.length = ([0, 1, 2] : List ℚ).length →
        r.extra = some (maskList [true, true, false] l)) ∧
      r.gti = evMaskScenario.gti ∧ r.mjdref = evMaskScenario.mjdref ∧
      r.dt = evMaskScenario.dt ∧ r.ncounts = evMaskScenario.ncounts ∧
      r.mission = evMaskScenario.mission ∧ r.instr = evMaskScenario.instr ∧
      r.notes = evMaskScenario.notes ∧
      evMaskScenario.apply_mask_inplace [true, true, false] = some (r, r) :=
  claim_C2_apply_mask evMaskScenario [0, 1, 2] [true, true, false] rfl
    (by decide) (by decide)

/-- C6.  The claimed invariant fails: `apply_mask` never updates `ncounts`.
Starting from `EventList(time=[0,1,2])` (so `__init__` sets `ncounts = 3`),
masking with `[True, True, False]` returns an instance whose `time` has 2
events but whose `ncounts` is still 3. -/
theorem claim_C6_ncounts_stale :
    ((EventList.init [0, 1, 2] none none none 0 0).apply_mask
        [true, true, false]).map (fun r => (r.ncounts, r.time.map List.length))
      = some (some 3, some 2) ∧ (3 : ℕ) ≠ 2 := by
  constructor
  · rfl
  · decide

/-! ## Time-Reference Shifter: claim C7 -/

/-- C7.  `shift` returns a copy with every timestamp and every GTI boundary
increased by `d`, all other attributes (including `mjdref`) unchanged, and
shifting back by `-d` restores the original event list exactly (the model
uses exact rational arithmetic, so the floating-tolerance round trip holds
with zero error). -/
theorem claim_C7_shift_round_trip (s : EventList) (t : List ℚ)
    (g : List (ℚ × ℚ)) (d : ℚ) (ht : s.time = some t) (hg : s.gti = some g) :
    ∃ r, s.shift d = some r ∧
      r.time = some (t.map (fun x => x + d)) ∧
      r.gti = some (g.map (fun p => (p.1 + d, p.2 + d))) ∧
      r.mjdref = s.mjdref ∧ r.energy = s.energy ∧ r.pi = s.pi ∧
      r.extra = s.extra ∧ r.dt = s.dt ∧ r.ncounts = s.ncounts ∧
      r.shift (-d) = some s := by
  have hres : s.shift d = some { s with
      time := some (t.map (fun x => x + d)),
      gti := some (g.map (fun p => (p.1 + d, p.2 + d))) } := by
    unfold EventList.shift
    rw [ht, hg]
  refine ⟨_, hres, rfl, rfl, rfl, rfl, rfl, rfl, rfl, rfl, ?_⟩
  unfold EventList.shift
  simp only [List.map_map]
  have h1 : (t.map ((fun x => x + -d) ∘ fun x => x + d)) = t := by
    simp [Function.comp_def]
  have h2 : (g.map ((fun p : ℚ × ℚ => (p.1 + -d, p.2 + -d)) ∘
      fun p => (p.1 + d, p.2 + d))) = g := by
    simp [Function.comp_def]
  rw [h1, h2, ← ht, ← hg]

/-- A small concrete stream used to witness the shift round trip. -/
def evShiftScenario : EventList :=
  { emptyEv with
    time := some [1, 2],
    gti := some [(0, 3)] }

/-- Witness for C7 at a concrete stream and shift. -/
theorem claim_C7_shift_round_trip_witness :
    ∃ r, evShiftScenario.shift 5 = some r ∧
      r.time = some (([1, 2] : List ℚ).map (fun x => x + 5)) ∧
      r.gti = some (([(0, 3)] : List (ℚ × ℚ)).map
        (fun p => (p.1 + 5, p.2 + 5))) ∧
      r.mjdref = evShiftScenario.mjdref ∧ r.energy = evShiftScenario.energy ∧
      r.pi = evShiftScenario.pi ∧ r.extra = evShiftScenario.extra ∧
      r.dt = evShiftScenario.dt ∧ r.ncounts = evShiftScenario.ncounts ∧
      r.shift (-5) = some evShiftScenario :=
  claim_C7_shift_round_trip evShiftScenario [1, 2] [(0, 3)] 5 rfl rfl

/-- C9.  `filter_energy_range` computes the half-open-range mask
`(v >= low) & (v < high)` over the chosen attribute and delegates to
`apply_mask`, so it keeps exactly the events whose value lies in
`[low, high)`. -/
theorem claim_C9_filter_energy_range (s : EventList) (t vals : List ℚ)
    (lo hi : ℚ) (use_pi : Bool) (ht : s.time = some t)
    (hv : (if use_pi then s.pi else s.energy) = some vals)
    (hlen : vals.length = t.length) :
    ∃ r, s.filter_energy_range lo hi use_pi =
        s.apply_mask (vals.map (fun v => decide (lo ≤ v) && decide (v < hi))) ∧
      s.filter_energy_range lo hi use_pi = some r ∧
      r.time = some (((t.zip vals).filter
        (fun q => decide (lo ≤ q.2) && decide (q.2 < hi))).map
          (fun q => q.1)) := by
  have hdeleg : s.filter_energy_range lo hi use_pi =
      s.apply_mask (vals.map (fun v => decide (lo ≤ v) && decide (v < hi))) := by
    unfold EventList.filter_energy_range
    rw [hv]
  have hmlen : (vals.map (fun v => decide (lo ≤ v) && decide (v < hi))).length
      = t.length := by simp [hlen]
  have hr := apply_mask_eq s t _ ht hmlen
  refine ⟨_, hdeleg, by rw [hdeleg, hr], ?_⟩
  show some (maskList _ t) = _
  rw [maskList_map]

/-- The spec's concrete scenario for energy filtering. -/
def evEnergyScenario : EventList :=
  { emptyEv with
    time := some [0, 1, 2],
    energy := some [3/10, 1/2, 2] }

/-- Witness for C9: the spec's concrete scenario
`EventStream(time=[0,1,2], energy=[0.3,0.5,2.0])` filtered by `[0, 1]`
keeps exactly the events with times `[0, 1]`. -/
theorem claim_C9_filter_energy_range_witness :
    ∃ r, evEnergyScenario.filter_energy_range 0 1 false =
        evEnergyScenario.apply_mask (([3/10, 1/2, 2] : List ℚ).map
          (fun v => decide ((0:ℚ) ≤ v) && decide (v < 1))) ∧
      evEnergyScenario.filter_energy_range 0 1 false = some r ∧
      r.time = some [0, 1] := by
  obtain ⟨r, h1, h2, h3⟩ := claim_C9_filter_energy_range evEnergyScenario
    [0, 1, 2] [3/10, 1/2, 2] 0 1 false rfl rfl (by decide)
  refine ⟨r, h1, h2, ?_⟩
  rw [h3]
  norm_num [List.filter]

/-! ## The sort permutation (`np.argsort`)

`join` computes `order = np.argsort(concatenated_time)` once and applies
that single permutation of indices to `time` and to every concatenated
array attribute.  The model fixes a concrete (stable) argsort; the claims
only rely on the result being a permutation of the index range that sorts
the values. -/

/-- Index comparison used by the modelled argsort: order indices by their
value, breaking ties by position (a stable argsort). -/
def argsortRel (l : List ℚ) (i j : ℕ) : Prop :=
  l.getD i 0 < l.getD j 0 ∨ (l.getD i 0 = l.getD j 0 ∧ i ≤ j)

instance (l : List ℚ) : DecidableRel (argsortRel l) := fun i j => by
  unfold argsortRel
  exact inferInstance

instance (l : List ℚ) : IsTotal ℕ (argsortRel l) := by
  constructor
  intro i j
  rcases lt_trichotomy (l.getD i 0) (l.getD j 0) with h | h | h
  · exact Or.inl (Or.inl h)
  · rcases Nat.le_total i j with hij | hij
    · exact Or.inl (Or.inr ⟨h, hij⟩)
    · exact Or.inr (Or.inr ⟨h.symm, hij⟩)
  · exact Or.inr (Or.inl h)

instance (l : List ℚ) : IsTrans ℕ (argsortRel l) := by
  constructor
  intro i j k hij hjk
  rcases hij with h1 | ⟨h1, h1'⟩
  · rcases hjk with h2 | ⟨h2, _⟩
    · exact Or.inl (h1.trans h2)
    · exact Or.inl (h2 ▸ h1)
  · rcases hjk with h2 | ⟨h2, h2'⟩
    · exact Or.inl (h1 ▸ h2)
    · exact Or.inr ⟨h1.trans h2, h1'.trans h2'⟩

/-- Model of `np.argsort(l)`: a permutation of `range l.length` listing the indices
in value order. -/
def argsort (l : List ℚ) : List ℕ :=
  List.insertionSort (argsortRel l) (List.range l.length)

/-- Model of `arr[order]` for an index array `order`: numpy fancy indexing. -/
def applyPerm (p : List ℕ) (l : List ℚ) : List ℚ :=
  p.map (fun i => l.getD i 0)

theorem argsort_perm (l : List ℚ) :
    List.Perm (argsort l) (List.range l.length) :=
  List.perm_insertionSort _ _

theorem applyPerm_argsort_sorted (l : List ℚ) :
    List.Sorted (· ≤ ·) (applyPerm (argsort l) l) := by
  have h := List.sorted_insertionSort (argsortRel l) (List.range l.length)
  refine List.Pairwise.map _ (fun i j hij => ?_) h
  rcases hij with h1 | ⟨h1, -⟩
  · exact le_of_lt h1
  · exact le_of_eq h1

theorem map_getD_range (l : List ℚ) :
    (List.range l.length).map (fun i => l.getD i 0) = l := by
  induction l with
  | nil => rfl
  | cons a l ih =>
    rw [List.length_cons, List.range_succ_eq_map, List.map_cons,
      List.map_map]
    simp only [List.getD_cons_zero, List.getD_cons_succ, Function.comp_def]
    rw [ih]

/-- Applying the argsort permutation yields a rearrangement of the input. -/
theorem applyPerm_argsort_perm (l : List ℚ) :
    List.Perm (applyPerm (argsort l) l) l := by
  have h := (argsort_perm l).map (fun i => l.getD i 0)
  rw [map_getD_range] at h
  exact h

/-! ## GTI Segmenter (`to_lc_list`): claim C3 -/

/-- Model of `np.searchsorted(l, v, side='left')` on a sorted array: the index of the
first element `≥ v`, i.e. the number of elements `< v`. -/
def searchsortedLeft (l : List ℚ) (v : ℚ) : ℕ :=
  l.countP (fun t => decide (t < v))

/-- Model of `np.searchsorted(l, v, side='right')` on a sorted array: the index of
the first element `> v`, i.e. the number of elements `≤ v`. -/
def searchsortedRight (l : List ℚ) (v : ℚ) : ℕ :=
  l.countP (fun t => decide (t ≤ v))

/-- The event sub-range handed to the binner for one GTI `[st, en]` in
`to_lc_list` (lines 262-274): `self.time[idx_st:idx_end]` with
`idx_st = searchsorted(time, st, side='right')` and
`idx_end = searchsorted(time, en, side='left')`. -/
def segTimes (t : List ℚ) (st en : ℚ) : List ℚ :=
  (t.take (searchsortedLeft t en)).drop (searchsortedRight t st)

/-- The sub-range selection exactly as the claim words it: lower bound =
index of the first element with `time ≥ start` (`side='left'`), upper
bound = index of the first element with `time > end` (`side='right'`).
Stated only to be compared with `segTimes`, which follows the source. -/
def claimedSegTimes (t : List ℚ) (st en : ℚ) : List ℚ :=
  (t.take (searchsortedRight t en)).drop (searchsortedLeft t st)

/-- The per-GTI event subsets produced by `to_lc_list`, in GTI order (the
generator hands each one to the external `Lightcurve` binner, which is out
of scope).  `none` models the crash when `gti` or `time` is `None`. -/
def EventList.to_lc_list_times (e : EventList) : Option (List (List ℚ)) :=
  match e.gti, e.time with
  | some g, some t => some (g.map (fun p => segTimes t p.1 p.2))
  | _, _ => none

/-- On a sorted list, the slice taken by `segTimes` is exactly the filter
for the open interval `(st, en)`. -/
theorem segTimes_eq_filter (st en : ℚ) (hsten : st < en) :
    ∀ t : List ℚ, List.Sorted (· ≤ ·) t →
      segTimes t st en =
        t.filter (fun x => decide (st < x) && decide (x < en))
  | [], _ => rfl
  | a :: t, h => by
    have htail := h.of_cons
    have hall := List.rel_of_sorted_cons h
    have ih := segTimes_eq_filter st en hsten t htail
    unfold segTimes searchsortedLeft searchsortedRight at ih ⊢
    by_cases ha1 : a ≤ st
    · have ha2 : a < en := lt_of_le_of_lt ha1 hsten
      have hna : ¬ st < a := not_lt.mpr ha1
      simp [List.countP_cons, decide_eq_true ha1, decide_eq_true ha2,
        decide_eq_false hna, List.take_succ_cons, List.drop_succ_cons,
        List.filter_cons, ih]
    · have hsta : st < a := not_le.mp ha1
      have hzero : t.countP (fun x => decide (x ≤ st)) = 0 := by
        rw [List.countP_eq_zero]
        intro x hx
        simp only [decide_eq_true_eq]
        exact not_le.mpr (lt_of_lt_of_le hsta (hall x hx))
      rw [hzero, List.drop_zero] at ih
      by_cases ha2 : a < en
      · simp [List.countP_cons, decide_eq_false ha1, decide_eq_true ha2,
          decide_eq_true hsta, hzero, List.take_succ_cons,
          List.filter_cons, ih]
      · have hena : en ≤ a := not_lt.mp ha2
        have hzl : (a :: t).countP (fun x => decide (x < en)) = 0 := by
          rw [List.countP_eq_zero]
          intro x hx
          simp only [decide_eq_true_eq]
          rcases List.mem_cons.mp hx with hx | hx
          · exact hx ▸ ha2
          · exact not_lt.mpr (le_trans hena (hall x hx))
        rw [hzl, List.take_zero, List.drop_nil]
        rw [eq_comm, List.filter_eq_nil_iff]
        intro x hx
        simp only [Bool.and_eq_true, decide_eq_true_eq, not_and]
        intro _
        rcases List.mem_cons.mp hx with hx | hx
        · exact hx ▸ ha2
        · exact not_lt.mpr (le_trans hena (hall x hx))

/-- Concatenating the filters of two predicates over one sorted list gives
the filter of their disjunction, provided every element selected by the
first strictly precedes (in value) every element selected by the second. -/
theorem filter_append_filter_sorted (p q : ℚ → Bool)
    (hpq : ∀ x y, p x = true → q y = true → x < y) :
    ∀ t : List ℚ, List.Sorted (· ≤ ·) t →
      t.filter p ++ t.filter q = t.filter (fun x => p x || q x)
  | [], _ => rfl
  | a :: t, h => by
    have htail := h.of_cons
    have hall := List.rel_of_sorted_cons h
    have ih := filter_append_filter_sorted p q hpq t htail
    by_cases hpa : p a = true
    · have hqa : ¬ q a = true := by
        intro hq
        exact lt_irrefl a (hpq a a hpa hq)
      simp [List.filter_cons, hpa, hqa, ← ih]
    · by_cases hqa : q a = true
      · have hpt : t.filter p = [] := by
          rw [List.filter_eq_nil_iff]
          intro x hx hpx
          exact absurd (hall x hx) (not_le.mpr (hpq x a hpx hqa))
        have hcongr : t.filter (fun x => p x || q x) = t.filter q := by
          apply List.filter_congr
          intro x hx
          rcases hp : p x with - | -
          · simp
          · exact absurd (hall x hx) (not_le.mpr (hpq x a hp hqa))
        simp [List.filter_cons, hpa, hqa, hpt, hcongr]
      · simp [List.filter_cons, hpa, hqa, ih]

/-- Concatenating the per-GTI subsets (in GTI order) of a sorted stream
over sorted, non-overlapping, valid GTIs gives exactly the events strictly
inside some GTI. -/
theorem segTimes_flatten (t : List ℚ) (hsort : List.Sorted (· ≤ ·) t) :
    ∀ gtis : List (ℚ × ℚ),
      List.Pairwise (fun g g' => g.2 ≤ g'.1) gtis →
      (∀ g ∈ gtis, g.1 < g.2) →
      (gtis.map (fun g => segTimes t g.1 g.2)).flatten =
        t.filter (fun x =>
          gtis.any (fun g => decide (g.1 < x) && decide (x < g.2)))
  | [], _, _ => by simp
  | g :: gs, hpair, hval => by
    obtain ⟨hg_all, hgs⟩ := List.pairwise_cons.mp hpair
    have hg12 : g.1 < g.2 := hval g (List.mem_cons_self g gs)
    have ih := segTimes_flatten t hsort gs hgs
      (fun g' hg' => hval g' (List.mem_cons_of_mem g hg'))
    have hseg := segTimes_eq_filter g.1 g.2 hg12 t hsort
    have happ := filter_append_filter_sorted
      (fun x => decide (g.1 < x) && decide (x < g.2))
      (fun x => gs.any (fun g' => decide (g'.1 < x) && decide (x < g'.2)))
      (fun x y hx hy => by
        simp only [Bool.and_eq_true, decide_eq_true_eq] at hx
        rw [List.any_eq_true] at hy
        obtain ⟨g', hg'mem, hy'⟩ := hy
        simp only [Bool.and_eq_true, decide_eq_true_eq] at hy'
        exact lt_of_lt_of_le hx.2 (le_trans (hg_all g' hg'mem)
          (le_of_lt hy'.1)))
      t hsort
    rw [List.map_cons, List.flatten_cons, hseg, ih, happ]
    apply List.filter_congr
    intro x _
    simp [List.any_cons]

/-- A concrete stream whose events sit on its GTI boundaries: `time =
[0, 1, 2]`, one GTI `[0, 2]`. -/
def evSegScenario : EventList :=
  { emptyEv with
    time := some [0, 1, 2],
    gti := some [(0, 2)] }

/-- C3, counterexample.  On `time=[0,1,2]` with GTI `[0,2]`, the code's
segmenter (`side='right'` at the start, `side='left'` at the end) keeps
only `[1]`, while the claim's convention (first index with `time ≥ start`,
first index with `time > end`) would keep `[0, 1, 2]`: the boundary events
`0` and `2` are assigned to no segment, not to exactly one. -/
theorem claim_C3_counterexample :
    evSegScenario.to_lc_list_times = some [[1]] ∧
    claimedSegTimes [0, 1, 2] 0 2 = [0, 1, 2] ∧
    segTimes [0, 1, 2] 0 2 ≠ claimedSegTimes [0, 1, 2] 0 2 := by
  refine ⟨rfl, ?_, ?_⟩ <;> decide

/-- C3, amended.  For every event list with sorted `time` and sorted,
non-overlapping GTIs with `start < end`: the per-GTI segmenter selects the
sub-range with the index of the first element with `time > start` as lower
bound (`side='right'`) and the index of the first element with
`time ≥ end` as upper bound (`side='left'`), so each segment holds exactly
the events strictly inside `(start, end)` — an event whose timestamp
equals a GTI boundary is assigned to no segment — and concatenating the
per-segment subsets in GTI order reproduces exactly the events lying
strictly inside some GTI, with no duplicates and no omissions. -/
theorem claim_C3_segmenter (e : EventList) (t : List ℚ)
    (gtis : List (ℚ × ℚ)) (ht : e.time = some t) (hg : e.gti = some gtis)
    (hsort : List.Sorted (· ≤ ·) t)
    (hord : List.Pairwise (fun g g' => g.2 ≤ g'.1) gtis)
    (hval : ∀ g ∈ gtis, g.1 < g.2) :
    e.to_lc_list_times = some (gtis.map (fun g => segTimes t g.1 g.2)) ∧
    (∀ g ∈ gtis, segTimes t g.1 g.2 =
      t.filter (fun x => decide (g.1 < x) && decide (x < g.2))) ∧
    (gtis.map (fun g => segTimes t g.1 g.2)).flatten =
      t.filter (fun x =>
        gtis.any (fun g => decide (g.1 < x) && decide (x < g.2))) := by
  refine ⟨?_, ?_, segTimes_flatten t hsort gtis hord hval⟩
  · unfold EventList.to_lc_list_times
    rw [ht, hg]
  · intro g hgmem
    exact segTimes_eq_filter g.1 g.2 (hval g hgmem) t hsort

/-- Witness for C3 (amended) on a sorted 4-event stream with two touching
GTIs: the boundary event `2` belongs to no segment. -/
theorem claim_C3_segmenter_witness :
    ({ emptyEv with
        time := some [0, 1, 2, 3],
        gti := some [(0, 2), (2, 4)] } : EventList).to_lc_list_times =
      some ([(0, 2), (2, 4)].map
        (fun g => segTimes [0, 1, 2, 3] g.1 g.2)) ∧
    (∀ g ∈ ([(0, 2), (2, 4)] : List (ℚ × ℚ)),
      segTimes [0, 1, 2, 3] g.1 g.2 =
        ([0, 1, 2, 3] : List ℚ).filter
          (fun x => decide (g.1 < x) && decide (x < g.2))) ∧
    (([(0, 2), (2, 4)] : List (ℚ × ℚ)).map
        (fun g => segTimes [0, 1, 2, 3] g.1 g.2)).flatten =
      ([0, 1, 2, 3] : List ℚ).filter
        (fun x => ([(0, 2), (2, 4)] : List (ℚ × ℚ)).any
          (fun g => decide (g.1 < x) && decide (x < g.2))) :=
  claim_C3_segmenter _ [0, 1, 2, 3] [(0, 2), (2, 4)] rfl rfl
    (by decide) (by decide) (by decide)

/-! ## Attribute Classifier (`array_attrs` / `meta_attrs`): claim C8

`array_attrs` iterates `dir(self)` and keeps every attribute whose value is
`Iterable` and whose `np.shape` equals `self.time.shape`; `meta_attrs`
keeps every attribute that is not an array attribute, does not start with
an underscore, and is not callable.  To model this reflective code we use a
name→value registry: `PyObj.attrs` lists the data attributes `dir(self)`
would report (methods — the only callable attributes — are not data and
are not represented; they are rejected by `Iterable` in `array_attrs` and
by `callable` in `meta_attrs`). -/

/-- A Python attribute value, as far as `np.shape` and `Iterable` see it. -/
inductive PyVal where
  | vNone : PyVal
  | vInt : ℤ → PyVal
  | vNum : ℚ → PyVal
  | vStr : String → PyVal
  | vArr1 : List ℚ → PyVal
  | vArr2 : List (List ℚ) → PyVal
  deriving DecidableEq, Repr

/-- Model of `isinstance(x, Iterable)`: strings and arrays are iterable; `None` and
numbers are not. -/
def PyVal.iterable : PyVal → Bool
  | PyVal.vStr _ => true
  | PyVal.vArr1 _ => true
  | PyVal.vArr2 _ => true
  | _ => false

/-- Model of `np.shape(x)`: `()` for scalars, strings and `None`; `(n,)` for a 1-D
array; `(n, m)` for a rectangular 2-D array (GTI arrays have `m = 2`). -/
def PyVal.npShape : PyVal → List ℕ
  | PyVal.vArr1 l => [l.length]
  | PyVal.vArr2 ll => [ll.length, (ll.headD []).length]
  | _ => []

/-- Whether `x.shape` exists (`self.time.shape` raises otherwise): true for
numpy arrays. -/
def PyVal.hasShapeAttr : PyVal → Bool
  | PyVal.vArr1 _ => true
  | PyVal.vArr2 _ => true
  | _ => false

/-- Model of `name.startswith("_")`: the privacy test used by `meta_attrs`,
computed on the character list. -/
def pyPrivate (s : String) : Bool := s.data.headD ' ' == '_'

/-- An object as the classifier sees it: the named data attributes that
`dir(self)` reports. -/
structure PyObj where
  attrs : List (String × PyVal)
  deriving DecidableEq, Repr

/-- Model of `EventList.array_attrs(self)` (lines 168-193): every attribute whose
value is iterable and whose shape equals `self.time`'s shape — with no
privacy or callability filtering.  `none` models the crash when `time` is
absent or has no `.shape`. -/
def PyObj.array_attrs (o : PyObj) : Option (List String) :=
  match o.attrs.lookup ("time") with
  | some tv =>
      if tv.hasShapeAttr then
        some ((o.attrs.filter
          (fun p => p.2.iterable && (p.2.npShape == tv.npShape))).map
            (fun p => p.1))
      else none
  | none => none

/-- Model of `EventList.meta_attrs(self)` (lines 195-217): every attribute not in
`array_attrs()` and not starting with an underscore (the `callable` test
excludes only methods, which the registry does not carry). -/
def PyObj.meta_attrs (o : PyObj) : Option (List String) :=
  o.array_attrs.map (fun aa =>
    (o.attrs.filter
      (fun p => !(aa.contains p.1) && !(pyPrivate p.1))).map
        (fun p => p.1))

/-- The array-attribute classifier exactly as the claim words it: "visible,
non-callable, non-private attributes whose value is iterable and whose full
shape equals time's shape".  Stated only to be compared with
`PyObj.array_attrs`, which follows the source (the source applies no
privacy filter there). -/
def claimedArrayAttrs (o : PyObj) : Option (List String) :=
  match o.attrs.lookup ("time") with
  | some tv =>
      if tv.hasShapeAttr then
        some ((o.attrs.filter
          (fun p => !(pyPrivate p.1) &&
            (p.2.iterable && (p.2.npShape == tv.npShape)))).map
            (fun p => p.1))
      else none
  | none => none

/-- A registry carrying a user-added private array attribute of matching
shape alongside a 1-event `time`. -/
def objHidden : PyObj :=
  { attrs := [("_hidden", PyVal.vArr1 [5]), ("time", PyVal.vArr1 [1])] }

/-- C8, counterexample.  `array_attrs` applies no privacy (or callability)
filter: a user-added attribute named `_hidden` with the same shape as
`time` is returned by the code's classifier, contradicting the claim's
"non-private" qualification. -/
theorem claim_C8_counterexample :
    objHidden.array_attrs = some ["_hidden", "time"] ∧
    claimedArrayAttrs objHidden = some ["time"] ∧
    objHidden.array_attrs ≠ claimedArrayAttrs objHidden := by
  refine ⟨rfl, rfl, ?_⟩
  decide

/-- In a registry with distinct attribute names (as `dir(self)` reports),
an attribute name determines its value. -/
theorem assoc_unique :
    ∀ {l : List (String × PyVal)},
      (l.map (fun p => p.1)).Nodup →
      ∀ {n : String} {v w : PyVal}, (n, v) ∈ l → (n, w) ∈ l → v = w
  | [], _, _, _, _, hv, _ => absurd hv (List.not_mem_nil _)
  | a :: l, hnd, n, v, w, hv, hw => by
    rw [List.map_cons, List.nodup_cons] at hnd
    rcases List.mem_cons.mp hv with hv | hv <;>
      rcases List.mem_cons.mp hw with hw | hw
    · exact congrArg Prod.snd (hv.trans hw.symm)
    · exact absurd (List.mem_map.mpr ⟨(n, w), hw, by rw [← hv]⟩) hnd.1
    · exact absurd (List.mem_map.mpr ⟨(n, v), hv, by rw [← hw]⟩) hnd.1
    · exact assoc_unique hnd.2 hv hw

/-- C8, amended.  For every object with a `time` attribute that is a numpy
array and distinct attribute names: `array_attrs` returns exactly the
attributes — private-named ones included, since the source applies no
privacy or callability filter there — whose value is iterable and whose
full shape (all dimensions) equals `time`'s shape; `meta_attrs` returns
exactly the non-private attributes not classified as array attributes; in
particular a GTI attribute holding a single `[start, end]` pair on a
one-event stream has shape `(1, 2) ≠ (1,)`, is never an array attribute,
and is classified as a summary attribute. -/
theorem claim_C8_classifier (o : PyObj) (tv : PyVal)
    (htv : o.attrs.lookup ("time") = some tv) (hsh : tv.hasShapeAttr = true)
    (hnd : (o.attrs.map (fun p => p.1)).Nodup) :
    ∃ aa ma, o.array_attrs = some aa ∧ o.meta_attrs = some ma ∧
      (∀ n : String, n ∈ aa ↔
        ∃ v, (n, v) ∈ o.attrs ∧ v.iterable = true ∧ v.npShape = tv.npShape) ∧
      (∀ n : String, n ∈ ma ↔
        ∃ v, (n, v) ∈ o.attrs ∧ n ∉ aa ∧ pyPrivate n = false) ∧
      (∀ gl : List (List ℚ), ("gti", PyVal.vArr2 gl) ∈ o.attrs →
        tv.npShape = [1] → gl.length = 1 → (∀ r ∈ gl, r.length = 2) →
        "gti" ∉ aa ∧ "gti" ∈ ma) := by
  have haa : o.array_attrs = some ((o.attrs.filter
      (fun p => p.2.iterable && (p.2.npShape == tv.npShape))).map
        (fun p => p.1)) := by
    unfold PyObj.array_attrs
    rw [htv]
    simp [hsh]
  have hma : o.meta_attrs = some ((o.attrs.filter
      (fun p => !(((o.attrs.filter
        (fun p => p.2.iterable && (p.2.npShape == tv.npShape))).map
          (fun p => p.1)).contains p.1) && !(pyPrivate p.1))).map
            (fun p => p.1)) := by
    unfold PyObj.meta_attrs
    rw [haa]
    rfl
  have hmem_aa : ∀ n : String, (n ∈ ((o.attrs.filter
      (fun p => p.2.iterable && (p.2.npShape == tv.npShape))).map
        (fun p => p.1))) ↔
      ∃ v, (n, v) ∈ o.attrs ∧ v.iterable = true ∧ v.npShape = tv.npShape := by
    intro n
    constructor
    · intro hn
      obtain ⟨⟨n', v⟩, hp, hpn⟩ := List.mem_map.mp hn
      dsimp at hpn
      subst hpn
      obtain ⟨hpmem, hpred⟩ := List.mem_filter.mp hp
      simp only [Bool.and_eq_true, beq_iff_eq] at hpred
      exact ⟨v, hpmem, hpred.1, hpred.2⟩
    · rintro ⟨v, hv, hit, hshp⟩
      exact List.mem_map.mpr ⟨(n, v),
        List.mem_filter.mpr ⟨hv, by simp [hit, hshp]⟩, rfl⟩
  refine ⟨_, _, haa, hma, hmem_aa, ?_, ?_⟩
  · intro n
    constructor
    · intro hn
      obtain ⟨⟨n', v⟩, hp, hpn⟩ := List.mem_map.mp hn
      dsimp at hpn
      subst hpn
      obtain ⟨hpmem, hpred⟩ := List.mem_filter.mp hp
      simp only [Bool.and_eq_true, Bool.not_eq_true'] at hpred
      refine ⟨v, hpmem, ?_, hpred.2⟩
      intro hcont
      have hc : ((o.attrs.filter
          (fun p => p.2.iterable && (p.2.npShape == tv.npShape))).map
            (fun p => p.1)).contains n' = true := List.elem_iff.mpr hcont
      rw [hpred.1] at hc
      exact Bool.false_ne_true hc
    · rintro ⟨v, hv, hnaa, hpriv⟩
      refine List.mem_map.mpr ⟨(n, v), List.mem_filter.mpr ⟨hv, ?_⟩, rfl⟩
      have hcont : (((o.attrs.filter
          (fun p => p.2.iterable && (p.2.npShape == tv.npShape))).map
            (fun p => p.1)).contains n) = false := by
        rw [Bool.eq_false_iff]
        intro hc
        exact hnaa (List.elem_iff.mp hc)
      simp only [hcont, hpriv]
      rfl
  · intro gl hgl hshp1 hlen1 hrows
    obtain ⟨r, hr⟩ := List.length_eq_one.mp hlen1
    have hshape : (PyVal.vArr2 gl).npShape = [1, 2] := by
      subst hr
      simp [PyVal.npShape, hrows r (List.mem_singleton_self r)]
    have hgti_naa : "gti" ∉ ((o.attrs.filter
        (fun p => p.2.iterable && (p.2.npShape == tv.npShape))).map
          (fun p => p.1)) := by
      intro hmem
      obtain ⟨v, hvmem, -, hvshape⟩ := (hmem_aa ("gti")).mp hmem
      have hveq : v = PyVal.vArr2 gl := assoc_unique hnd hvmem hgl
      rw [hveq, hshape, hshp1] at hvshape
      exact absurd hvshape (by decide)
    refine ⟨hgti_naa, ?_⟩
    refine List.mem_map.mpr ⟨("gti", PyVal.vArr2 gl),
      List.mem_filter.mpr ⟨hgl, ?_⟩, rfl⟩
    have hcont : (((o.attrs.filter
        (fun p => p.2.iterable && (p.2.npShape == tv.npShape))).map
          (fun p => p.1)).contains ("gti")) = false := by
      rw [Bool.eq_false_iff]
      intro hc
      exact hgti_naa (List.elem_iff.mp hc)
    simp only [hcont]
    decide

/-- The claim's concrete shape scenario: a 1-event stream with a 1-interval
GTI and a per-event channel column. -/
def objGtiScenario : PyObj :=
  { attrs := [("time", PyVal.vArr1 [10]),
              ("gti", PyVal.vArr2 [[45, 4]]),
              ("pi", PyVal.vArr1 [0])] }

/-- Witness for C8 (amended), at the 1-event stream whose single-pair GTI
coincidentally has the same leading length as `time`. -/
theorem claim_C8_classifier_witness :
    ∃ aa ma, objGtiScenario.array_attrs = some aa ∧
      objGtiScenario.meta_attrs = some ma ∧
      (∀ n : String, n ∈ aa ↔
        ∃ v, (n, v) ∈ objGtiScenario.attrs ∧ v.iterable = true ∧
          v.npShape = (PyVal.vArr1 [10]).npShape) ∧
      (∀ n : String, n ∈ ma ↔
        ∃ v, (n, v) ∈ objGtiScenario.attrs ∧ n ∉ aa ∧
          pyPrivate n = false) ∧
      (∀ gl : List (List ℚ),
        ("gti", PyVal.vArr2 gl) ∈ objGtiScenario.attrs →
        (PyVal.vArr1 ([10] : List ℚ)).npShape = [1] → gl.length = 1 →
        (∀ r ∈ gl, r.length = 2) → "gti" ∉ aa ∧ "gti" ∈ ma) :=
  claim_C8_classifier objGtiScenario (PyVal.vArr1 [10]) rfl rfl (by decide)

/-! ## GTI Algebra

`join` imports `check_separate`, `append_gtis` and `cross_gtis` from the
`gti` module, which is not under `src/`; the three definitions below are
therefore modelled from the spec (§4.2). -/

/-- Modelled from the spec: `check_separate(A, B)` (the `gti` module is
missing from `src/`) — true iff no interval of `A` overlaps any interval
of `B`, treating touching endpoints as non-overlapping. -/
def check_separate (ga gb : List (ℚ × ℚ)) : Bool :=
  ga.all (fun a => gb.all (fun b =>
    !(decide (a.1 < b.2) && decide (b.1 < a.2))))

/-- Ordering of GTI intervals by start time. -/
def gtiStartLe (g h : ℚ × ℚ) : Prop := g.1 ≤ h.1

instance : DecidableRel gtiStartLe := fun g h => by
  unfold gtiStartLe
  exact inferInstance

instance : IsTotal (ℚ × ℚ) gtiStartLe := ⟨fun g h => le_total g.1 h.1⟩

instance : IsTrans (ℚ × ℚ) gtiStartLe :=
  ⟨fun _ _ _ h1 h2 => le_trans h1 h2⟩

/-- Modelled from the spec: `append_gtis(A, B)` (the `gti` module is
missing from `src/`) — the sorted concatenation of the two interval sets,
preserving both original windows verbatim. -/
def append_gtis (ga gb : List (ℚ × ℚ)) : List (ℚ × ℚ) :=
  List.insertionSort gtiStartLe (ga ++ gb)

/-- Modelled from the spec: `cross_gtis([A, B])` (the `gti` module is
missing from `src/`) — the interval-wise intersection of the two interval
sets: every nonempty pairwise overlap `[max(a₁,b₁), min(a₂,b₂)]`. -/
def cross_two_gtis (ga gb : List (ℚ × ℚ)) : List (ℚ × ℚ) :=
  (ga.map (fun a => gb.filterMap (fun b =>
    if max a.1 b.1 < min a.2 b.2 then some (max a.1 b.1, min a.2 b.2)
    else none))).flatten

theorem append_gtis_perm (ga gb : List (ℚ × ℚ)) :
    List.Perm (append_gtis ga gb) (ga ++ gb) :=
  List.perm_insertionSort _ _

theorem append_gtis_sorted (ga gb : List (ℚ × ℚ)) :
    List.Sorted gtiStartLe (append_gtis ga gb) :=
  List.sorted_insertionSort _ _

/-- Every interval produced by the intersection is contained in some
interval of each input (and is nonempty). -/
theorem cross_two_gtis_subset (ga gb : List (ℚ × ℚ)) :
    ∀ g ∈ cross_two_gtis ga gb,
      g.1 < g.2 ∧
      (∃ a ∈ ga, a.1 ≤ g.1 ∧ g.2 ≤ a.2) ∧
      (∃ b ∈ gb, b.1 ≤ g.1 ∧ g.2 ≤ b.2) := by
  intro g hg
  obtain ⟨l, hl, hgl⟩ := List.mem_flatten.mp hg
  obtain ⟨a, ha, hla⟩ := List.mem_map.mp hl
  rw [← hla] at hgl
  obtain ⟨b, hb, hfb⟩ := List.mem_filterMap.mp hgl
  by_cases hov : max a.1 b.1 < min a.2 b.2
  · rw [if_pos hov] at hfb
    obtain rfl : (max a.1 b.1, min a.2 b.2) = g := Option.some_injective _ hfb
    refine ⟨hov, ⟨a, ha, le_max_left _ _, min_le_left _ _⟩,
      ⟨b, hb, le_max_right _ _, min_le_right _ _⟩⟩
  · rw [if_neg hov] at hfb
    exact absurd hfb (Option.noConfusion)

/-! ## Merge Engine (`EventList.join`, lines 376-478)

The model is state-passing: `a.join b` returns
`(ev_new, final state of A, caller-visible final state of B, warnings)`,
or `none` where the Python raises.  Mutations of `other` after the epoch
reconciliation `other = other.change_mjdref(...)` rebinds the local name
are not visible to the caller; the caller-visible B state accounts for
that. -/

/-- Mission/instrument reconciliation (lines 470-474): equal values are
copied, differing values are comma-joined (`None + ','` raises, hence
`none`). -/
def joinLabel : Option String → Option String → Option (Option String)
  | x, y =>
    if x = y then some x
    else
      match x, y with
      | some sx, some sy => some (some (sx ++ "," ++ sy))
      | _, _ => none

/-- State of `ev_new` after the `dt` step (lines 399-404): `EventList()` defaults,
with `dt` set to the coarser value only when the two differ. -/
def joinDtEv (a b : EventList) : EventList :=
  if a.dt = b.dt then emptyEv else { emptyEv with dt := max a.dt b.dt }

/-- Lines 409-411: an absent `self.time` is replaced by an empty array. -/
def joinSelfFilled (a : EventList) : EventList :=
  if a.time = none then { a with time := some [] } else a

/-- Lines 413-415 (`elif`): an absent `other.time` is replaced by an empty
array only when `self.time` was present. -/
def joinOtherFilled (a b : EventList) : EventList :=
  if a.time = none then b
  else if b.time = none then { b with time := some [] } else b

/-- Lines 417-419: epoch reconciliation of `other` onto `self.mjdref`
when the two `mjdref`s are not `np.isclose`. -/
def joinReconciled (a b : EventList) : Option EventList :=
  if npIsClose a.mjdref b.mjdref then some (joinOtherFilled a b)
  else (joinOtherFilled a b).change_mjdref a.mjdref

/-- Lines 432-434: `ev_new.pi` is the reordered concatenation when both
sides carry a `pi`, and stays `None` otherwise. -/
def joinPiMerge (ev : EventList) (x y : Option (List ℚ)) (ord : List ℕ) :
    EventList :=
  match x, y with
  | some pa, some po => { ev with pi := some (applyPerm ord (pa ++ po)) }
  | _, _ => { ev with pi := none }

/-- Lines 444-446: the same for `energy`. -/
def joinEnergyMerge (ev : EventList) (x y : Option (List ℚ))
    (ord : List ℕ) : EventList :=
  match x, y with
  | some ea, some eo => { ev with energy := some (applyPerm ord (ea ++ eo)) }
  | _, _ => { ev with energy := none }

/-- Lines 459-468: the merged GTI set and the warning it may carry:
crossed when the two sets overlap, appended (with a warning) when they are
separate, absent when both (or, after synthesis, either) are absent. -/
def joinGtiCombine (x y : Option (List (ℚ × ℚ))) :
    Option (List (ℚ × ℚ)) × List String :=
  match x, y with
  | some ga, some go =>
      if check_separate ga go then
        (some (append_gtis ga go), ["gti-no-overlap"])
      else (some (cross_two_gtis ga go), [])
  | _, _ => (none, [])

/-- Lines 421-478 after time filling and epoch reconciliation: `a1` is the
filled `self`, `ot` the reconciled `other`, `ta`/`to'` their time arrays,
`ev0` the `ev_new` built so far.  Returns
`(ev_new, final self, final local other, warnings)`. -/
def joinCore (a1 ot ev0 : EventList) (ta to' : List ℚ) :
    Option (EventList × EventList × EventList × List String) :=
  let ord := argsort (ta ++ to')
  let ev1 := { ev0 with time := some (applyPerm ord (ta ++ to')) }
  let a2 := if a1.pi = none ∧ ot.pi ≠ none then
      { a1 with pi := some (zerosQ ta.length) } else a1
  let ot2 := if ot.pi = none ∧ a1.pi ≠ none then
      { ot with pi := some (zerosQ to'.length) } else ot
  let ev2 := joinPiMerge ev1 a2.pi ot2.pi ord
  let a3 := if a2.energy = none ∧ ot2.energy ≠ none then
      { a2 with energy := some (zerosQ ta.length) } else a2
  let ot3 := if ot2.energy = none ∧ a2.energy ≠ none then
      { ot2 with energy := some (zerosQ to'.length) } else ot2
  let ev3 := joinEnergyMerge ev2 a3.energy ot3.energy ord
  let a4 := if a3.gti = none ∧ ot3.gti ≠ none ∧ ta ≠ [] then
      { a3 with gti := some [(ta.headD 0 - a3.dt / 2,
                              ta.getLastD 0 + a3.dt / 2)] } else a3
  let ot4 := if ot3.gti = none ∧ a4.gti ≠ none ∧ to' ≠ [] then
      { ot3 with gti := some [(to'.headD 0 - ot3.dt / 2,
                               to'.getLastD 0 + ot3.dt / 2)] } else ot3
  let gtiw := joinGtiCombine a4.gti ot4.gti
  let ev4 := { ev3 with gti := gtiw.1 }
  (joinLabel a4.mission ot4.mission).bind (fun ms =>
    (joinLabel a4.instr ot4.instr).map (fun istr =>
      ({ ev4 with mission := ms, instr := istr, mjdref := a4.mjdref },
        a4, ot4, gtiw.2)))

/-- Model of `EventList.join(self, other)` (lines 376-478), state-passing: the
quadruple is `(ev_new, final A, caller-visible final B, warnings)`. -/
def EventList.join (a b : EventList) :
    Option (EventList × EventList × EventList × List String) :=
  let ev0 := joinDtEv a b
  let w0 : List String := if a.dt = b.dt then [] else ["dt-mismatch"]
  if a.time = none ∧ b.time = none then some (ev0, a, b, w0)
  else
    let a1 := joinSelfFilled a
    let b1 := joinOtherFilled a b
    let w1 := w0 ++ (if a.time = none ∨ b.time = none then
      ["empty-list"] else [])
    match joinReconciled a b with
    | none => none
    | some ot =>
      match a1.time, ot.time with
      | some ta, some to' =>
          (joinCore a1 ot ev0 ta to').map (fun r =>
            (r.1, r.2.1,
              (if npIsClose a.mjdref b.mjdref then r.2.2.1 else b1),
              w1 ++ r.2.2.2))
      | _, _ => none

/-- The merged event list (`ev_new`) alone. -/
def joinResult (a b : EventList) : Option EventList :=
  (a.join b).map (fun r => r.1)

theorem joinPiMerge_time (ev : EventList) (x y : Option (List ℚ))
    (ord : List ℕ) : (joinPiMerge ev x y ord).time = ev.time := by
  unfold joinPiMerge
  cases x <;> cases y <;> rfl

theorem joinPiMerge_energy (ev : EventList) (x y : Option (List ℚ))
    (ord : List ℕ) : (joinPiMerge ev x y ord).energy = ev.energy := by
  unfold joinPiMerge
  cases x <;> cases y <;> rfl

theorem joinEnergyMerge_time (ev : EventList) (x y : Option (List ℚ))
    (ord : List ℕ) : (joinEnergyMerge ev x y ord).time = ev.time := by
  unfold joinEnergyMerge
  cases x <;> cases y <;> rfl

theorem joinEnergyMerge_pi (ev : EventList) (x y : Option (List ℚ))
    (ord : List ℕ) : (joinEnergyMerge ev x y ord).pi = ev.pi := by
  unfold joinEnergyMerge
  cases x <;> cases y <;> rfl

theorem joinPiMerge_dt (ev : EventList) (x y : Option (List ℚ))
    (ord : List ℕ) : (joinPiMerge ev x y ord).dt = ev.dt := by
  unfold joinPiMerge
  cases x <;> cases y <;> rfl

theorem joinEnergyMerge_dt (ev : EventList) (x y : Option (List ℚ))
    (ord : List ℕ) : (joinEnergyMerge ev x y ord).dt = ev.dt := by
  unfold joinEnergyMerge
  cases x <;> cases y <;> rfl

/-- Properties of the reconciled `other`: every non-time-valued attribute
is that of `b`, the time array keeps its length, and nothing changes at
all when the epochs are close. -/
theorem joinReconciled_inv (a b : EventList) (ta tb : List ℚ)
    (hta : a.time = some ta) (htb : b.time = some tb)
    (ot : EventList) (hrec : joinReconciled a b = some ot) :
    ot.pi = b.pi ∧ ot.energy = b.energy ∧ ot.extra = b.extra ∧
    ot.dt = b.dt ∧ ot.mission = b.mission ∧ ot.instr = b.instr ∧
    ot.ncounts = b.ncounts ∧ (ot.gti = none ↔ b.gti = none) ∧
    ∃ to', ot.time = some to' ∧ to'.length = tb.length ∧
      (npIsClose a.mjdref b.mjdref = true → ot = b ∧ to' = tb) := by
  have hfill : joinOtherFilled a b = b := by
    unfold joinOtherFilled
    rw [hta, htb]
    simp
  unfold joinReconciled at hrec
  rw [hfill] at hrec
  by_cases hclose : npIsClose a.mjdref b.mjdref = true
  · rw [if_pos hclose, Option.some_inj] at hrec
    subst hrec
    exact ⟨rfl, rfl, rfl, rfl, rfl, rfl, rfl, Iff.rfl, tb, htb, rfl,
      fun _ => ⟨rfl, rfl⟩⟩
  · rw [if_neg hclose] at hrec
    unfold EventList.change_mjdref EventList.shift at hrec
    rw [htb] at hrec
    rcases hgb : b.gti with - | gb
    · rw [hgb] at hrec
      exact absurd hrec (by simp)
    · rw [hgb] at hrec
      simp only [Option.map_some', Option.some_inj] at hrec
      subst hrec
      refine ⟨rfl, rfl, rfl, rfl, rfl, rfl, rfl, by simp [hgb], _, rfl,
        by simp, fun hc => absurd hc hclose⟩

/-- Inversion of a successful `join` when both inputs carry timestamps:
the result comes from `joinCore` applied to `self` and the reconciled
`other`, and the caller-visible final B is the mutated local `other` only
when no epoch reconciliation rebound it. -/
theorem join_some_inv (a b : EventList) (ta tb : List ℚ)
    (hta : a.time = some ta) (htb : b.time = some tb)
    {c af bf : EventList} {w : List String}
    (hj : a.join b = some (c, af, bf, w)) :
    ∃ ot to' otf wcore,
      joinReconciled a b = some ot ∧ ot.time = some to' ∧
      joinCore a ot (joinDtEv a b) ta to' = some (c, af, otf, wcore) ∧
      bf = (if npIsClose a.mjdref b.mjdref = true then otf else b) ∧
      w = (if a.dt = b.dt then [] else ["dt-mismatch"]) ++ wcore := by
  unfold EventList.join at hj
  have hcond : ¬(a.time = none ∧ b.time = none) := by
    rw [hta]
    simp
  rw [if_neg hcond] at hj
  have hself : joinSelfFilled a = a := by
    unfold joinSelfFilled
    rw [hta]
    simp
  have hofill : joinOtherFilled a b = b := by
    unfold joinOtherFilled
    rw [hta, htb]
    simp
  rcases hrec : joinReconciled a b with - | ot
  · rw [hrec] at hj
    exact absurd hj (by simp)
  · rw [hrec] at hj
    simp only [hself, hta] at hj
    rcases hot : ot.time with - | to'
    · rw [hot] at hj
      exact absurd hj (by simp)
    · rw [hot] at hj
      simp only [Option.map_eq_some'] at hj
      obtain ⟨⟨c', af', otf, wcore⟩, hcore, heq⟩ := hj
      dsimp only at heq
      have hw0 : (if (some ta = none ∨ b.time = none) then
          (["empty-list"] : List String) else []) = [] := by
        rw [htb]
        simp
      rw [hw0, List.append_nil] at heq
      injection heq with h1 heq
      injection heq with h2 heq
      injection heq with h3 h4
      subst h1
      subst h2
      subst h3
      subst h4
      rw [hofill]
      exact ⟨ot, to', otf, wcore, rfl, hot, hcore, rfl, rfl⟩

/-- Field-level characterization of a successful `joinCore`: the merged
`time`, the case analysis for `pi`/`energy` (zero-filled on the absent
side), the synthesized/combined GTIs, and the mutated final states of
`self` and the local `other`. -/
theorem joinCore_fields (a1 ot ev0 : EventList) (ta to' : List ℚ)
    {c af otf : EventList} {wcore : List String}
    (h : joinCore a1 ot ev0 ta to' = some (c, af, otf, wcore)) :
    c.time = some (applyPerm (argsort (ta ++ to')) (ta ++ to')) ∧
    (a1.pi = none → ot.pi = none → c.pi = none) ∧
    (∀ pa, a1.pi = some pa → ot.pi = none →
      c.pi = some (applyPerm (argsort (ta ++ to'))
        (pa ++ zerosQ to'.length))) ∧
    (∀ po, a1.pi = none → ot.pi = some po →
      c.pi = some (applyPerm (argsort (ta ++ to'))
        (zerosQ ta.length ++ po))) ∧
    (∀ pa po, a1.pi = some pa → ot.pi = some po →
      c.pi = some (applyPerm (argsort (ta ++ to')) (pa ++ po))) ∧
    (a1.energy = none → ot.energy = none → c.energy = none) ∧
    (∀ ea, a1.energy = some ea → ot.energy = none →
      c.energy = some (applyPerm (argsort (ta ++ to'))
        (ea ++ zerosQ to'.length))) ∧
    (∀ eo, a1.energy = none → ot.energy = some eo →
      c.energy = some (applyPerm (argsort (ta ++ to'))
        (zerosQ ta.length ++ eo))) ∧
    (∀ ea eo, a1.energy = some ea → ot.energy = some eo →
      c.energy = some (applyPerm (argsort (ta ++ to')) (ea ++ eo))) ∧
    af.pi = (if a1.pi = none ∧ ot.pi ≠ none then
      some (zerosQ ta.length) else a1.pi) ∧
    af.energy = (if a1.energy = none ∧ ot.energy ≠ none then
      some (zerosQ ta.length) else a1.energy) ∧
    af.gti = (if a1.gti = none ∧ ot.gti ≠ none ∧ ta ≠ [] then
      some [(ta.headD 0 - a1.dt / 2, ta.getLastD 0 + a1.dt / 2)]
      else a1.gti) ∧
    af.time = a1.time ∧ af.dt = a1.dt ∧ af.mjdref = a1.mjdref ∧
    otf.gti = (if ot.gti = none ∧ af.gti ≠ none ∧ to' ≠ [] then
      some [(to'.headD 0 - ot.dt / 2, to'.getLastD 0 + ot.dt / 2)]
      else ot.gti) ∧
    otf.time = ot.time ∧
    otf.pi = (if ot.pi = none ∧ a1.pi ≠ none then
      some (zerosQ to'.length) else ot.pi) ∧
    otf.energy = (if ot.energy = none ∧ a1.energy ≠ none then
      some (zerosQ to'.length) else ot.energy) ∧
    c.gti = (joinGtiCombine af.gti otf.gti).1 ∧
    wcore = (joinGtiCombine af.gti otf.gti).2 ∧
    c.mjdref = a1.mjdref ∧ c.dt = ev0.dt := by
  unfold joinCore at h
  simp only [Option.bind_eq_some, Option.map_eq_some'] at h
  obtain ⟨ms, hms, istr, histr, heq⟩ := h
  injection heq with hc heq
  injection heq with haf heq
  injection heq with hotf hw
  subst hc
  subst haf
  subst hotf
  subst hw
  refine ⟨?_, ?_, ?_, ?_, ?_, ?_, ?_, ?_, ?_, ?_, ?_, ?_, ?_, ?_, ?_, ?_,
    ?_, ?_, ?_, ?_, ?_, ?_, ?_⟩
  · simp [joinPiMerge_time, joinEnergyMerge_time]
  · intro hpa hpo
    simp [joinEnergyMerge_pi, joinPiMerge, hpa, hpo]
  · intro pa hpa hpo
    simp [joinEnergyMerge_pi, joinPiMerge, hpa, hpo]
  · intro po hpa hpo
    simp [joinEnergyMerge_pi, joinPiMerge, hpa, hpo]
  · intro pa po hpa hpo
    simp [joinEnergyMerge_pi, joinPiMerge, hpa, hpo]
  · intro hea heo
    simp [joinEnergyMerge, joinPiMerge_energy, hea, heo,
      apply_ite EventList.energy]
  · intro ea hea heo
    simp [joinEnergyMerge, joinPiMerge_energy, hea, heo,
      apply_ite EventList.energy]
  · intro eo hea heo
    simp [joinEnergyMerge, joinPiMerge_energy, hea, heo,
      apply_ite EventList.energy]
  · intro ea eo hea heo
    simp [joinEnergyMerge, joinPiMerge_energy, hea, heo,
      apply_ite EventList.energy]
  · simp [apply_ite EventList.time, apply_ite EventList.pi,
      apply_ite EventList.energy, apply_ite EventList.gti,
      apply_ite EventList.dt, apply_ite EventList.mjdref]
  · simp [apply_ite EventList.time, apply_ite EventList.pi,
      apply_ite EventList.energy, apply_ite EventList.gti,
      apply_ite EventList.dt, apply_ite EventList.mjdref]
  · simp [apply_ite EventList.time, apply_ite EventList.pi,
      apply_ite EventList.energy, apply_ite EventList.gti,
      apply_ite EventList.dt, apply_ite EventList.mjdref]
  · simp [apply_ite EventList.time, apply_ite EventList.pi,
      apply_ite EventList.energy, apply_ite EventList.gti,
      apply_ite EventList.dt, apply_ite EventList.mjdref]
  · simp [apply_ite EventList.time, apply_ite EventList.pi,
      apply_ite EventList.energy, apply_ite EventList.gti,
      apply_ite EventList.dt, apply_ite EventList.mjdref]
  · simp [apply_ite EventList.time, apply_ite EventList.pi,
      apply_ite EventList.energy, apply_ite EventList.gti,
      apply_ite EventList.dt, apply_ite EventList.mjdref]
  · simp [apply_ite EventList.time, apply_ite EventList.pi,
      apply_ite EventList.energy, apply_ite EventList.gti,
      apply_ite EventList.dt, apply_ite EventList.mjdref]
  · simp [apply_ite EventList.time, apply_ite EventList.pi,
      apply_ite EventList.energy, apply_ite EventList.gti,
      apply_ite EventList.dt, apply_ite EventList.mjdref]
  · simp [apply_ite EventList.time, apply_ite EventList.pi,
      apply_ite EventList.energy, apply_ite EventList.gti,
      apply_ite EventList.dt, apply_ite EventList.mjdref]
  · simp [apply_ite EventList.time, apply_ite EventList.pi,
      apply_ite EventList.energy, apply_ite EventList.gti,
      apply_ite EventList.dt, apply_ite EventList.mjdref]
  · simp [apply_ite EventList.time, apply_ite EventList.pi,
      apply_ite EventList.energy, apply_ite EventList.gti,
      apply_ite EventList.dt, apply_ite EventList.mjdref]
  · simp [apply_ite EventList.time, apply_ite EventList.pi,
      apply_ite EventList.energy, apply_ite EventList.gti,
      apply_ite EventList.dt, apply_ite EventList.mjdref]
  · simp [apply_ite EventList.time, apply_ite EventList.pi,
      apply_ite EventList.energy, apply_ite EventList.gti,
      apply_ite EventList.dt, apply_ite EventList.mjdref]
  · simp [joinPiMerge_dt, joinEnergyMerge_dt,
      apply_ite EventList.time, apply_ite EventList.pi,
      apply_ite EventList.energy, apply_ite EventList.gti,
      apply_ite EventList.dt, apply_ite EventList.mjdref]

/-! ## Merge Engine claims -/

/-- C4.  For inputs with non-None `time`, whenever `join` returns: `pi` and
`energy` are merged with zero defaulting — absent on both sides gives an
absent merged attribute; present on exactly one side materializes the
absent side as zeros of that side's event count before concatenating;
present on both concatenates directly — and in every non-None case the
concatenated attribute is reordered by the single sort permutation
`argsort` of the concatenated time array, the merged `time` being that
same permutation of the concatenated times, sorted ascending (`to'` is
B's time after the epoch reconciliation; it is B's time verbatim when the
epochs are within tolerance, and keeps B's event count always). -/
theorem claim_C4_join_zero_default_attrs (a b : EventList)
    (ta tb : List ℚ) (hta : a.time = some ta) (htb : b.time = some tb)
    (c af bf : EventList) (w : List String)
    (hj : a.join b = some (c, af, bf, w)) :
    ∃ to', to'.length = tb.length ∧
      (npIsClose a.mjdref b.mjdref = true → to' = tb) ∧
      c.time = some (applyPerm (argsort (ta ++ to')) (ta ++ to')) ∧
      List.Sorted (· ≤ ·) (applyPerm (argsort (ta ++ to')) (ta ++ to')) ∧
      List.Perm (applyPerm (argsort (ta ++ to')) (ta ++ to')) (ta ++ to') ∧
      (a.pi = none → b.pi = none → c.pi = none) ∧
      (∀ pa, a.pi = some pa → b.pi = none →
        c.pi = some (applyPerm (argsort (ta ++ to'))
          (pa ++ zerosQ tb.length))) ∧
      (∀ pb, a.pi = none → b.pi = some pb →
        c.pi = some (applyPerm (argsort (ta ++ to'))
          (zerosQ ta.length ++ pb))) ∧
      (∀ pa pb, a.pi = some pa → b.pi = some pb →
        c.pi = some (applyPerm (argsort (ta ++ to')) (pa ++ pb))) ∧
      (a.energy = none → b.energy = none → c.energy = none) ∧
      (∀ ea, a.energy = some ea → b.energy = none →
        c.energy = some (applyPerm (argsort (ta ++ to'))
          (ea ++ zerosQ tb.length))) ∧
      (∀ eb, a.energy = none → b.energy = some eb →
        c.energy = some (applyPerm (argsort (ta ++ to'))
          (zerosQ ta.length ++ eb))) ∧
      (∀ ea eb, a.energy = some ea → b.energy = some eb →
        c.energy = some (applyPerm (argsort (ta ++ to')) (ea ++ eb))) := by
  obtain ⟨ot, to', otf, wcore, hrec, hot, hcore, hbf, hw⟩ :=
    join_some_inv a b ta tb hta htb hj
  obtain ⟨hpi, hen, hex, hdt, hms, hin, hnc, hgiff, to'', hot'', hlen,
    hcl⟩ := joinReconciled_inv a b ta tb hta htb ot hrec
  have hto : to'' = to' := by
    rw [hot] at hot''
    exact (Option.some_inj.mp hot'').symm
  rw [hto] at hlen hcl
  obtain ⟨htime, hp00, hp10, hp01, hp11, he00, he10, he01, he11, -⟩ :=
    joinCore_fields a ot (joinDtEv a b) ta to' hcore
  refine ⟨to', hlen, fun hc => (hcl hc).2, htime,
    applyPerm_argsort_sorted _, applyPerm_argsort_perm _, ?_, ?_, ?_, ?_,
    ?_, ?_, ?_, ?_⟩
  · intro h1 h2
    exact hp00 h1 (hpi.trans h2)
  · intro pa h1 h2
    rw [hp10 pa h1 (hpi.trans h2), hlen]
  · intro pb h1 h2
    exact hp01 pb h1 (hpi.trans h2)
  · intro pa pb h1 h2
    exact hp11 pa pb h1 (hpi.trans h2)
  · intro h1 h2
    exact he00 h1 (hen.trans h2)
  · intro ea h1 h2
    rw [he10 ea h1 (hen.trans h2), hlen]
  · intro eb h1 h2
    exact he01 eb h1 (hen.trans h2)
  · intro ea eb h1 h2
    exact he11 ea eb h1 (hen.trans h2)

/-- Identical epochs always pass the `np.isclose` test. -/
theorem npIsClose_same (x : ℚ) : npIsClose x x = true := by
  unfold npIsClose
  rw [decide_eq_true_eq, sub_self, abs_zero]
  positivity

/-- A concrete pair for the merge-engine witnesses: A carries `pi` but no
`energy`, B carries `energy` but no `pi`, epochs coincide. -/
def evJoinA : EventList :=
  { emptyEv with
    time := some [1, 2],
    pi := some [10, 20] }

def evJoinB : EventList :=
  { emptyEv with
    time := some [3],
    energy := some [7] }

/-- The merged result of the witness pair. -/
def evJoinC : EventList :=
  { emptyEv with
    time := some [1, 2, 3],
    pi := some [10, 20, 0],
    energy := some [0, 0, 7] }

/-- Concrete evaluation of `join` on the witness pair: B's missing `pi` and
A's missing `energy` are zero-filled, and both inputs come back mutated. -/
theorem evJoin_eval : evJoinA.join evJoinB = some
    (evJoinC,
     { evJoinA with energy := some [0, 0] },
     { evJoinB with pi := some [0] },
     []) := by
  have hcl : npIsClose evJoinA.mjdref evJoinB.mjdref = true :=
    npIsClose_same 0
  unfold EventList.join joinReconciled
  simp only [hcl, if_true]
  decide

/-- Witness for C4 at the concrete pair. -/
theorem claim_C4_join_zero_default_attrs_witness :
    ∃ to', to'.length = ([3] : List ℚ).length ∧
      (npIsClose evJoinA.mjdref evJoinB.mjdref = true → to' = [3]) ∧
      evJoinC.time =
        some (applyPerm (argsort ([1, 2] ++ to')) ([1, 2] ++ to')) ∧
      List.Sorted (· ≤ ·)
        (applyPerm (argsort ([1, 2] ++ to')) ([1, 2] ++ to')) ∧
      List.Perm (applyPerm (argsort ([1, 2] ++ to')) ([1, 2] ++ to'))
        ([1, 2] ++ to') ∧
      (evJoinA.pi = none → evJoinB.pi = none → evJoinC.pi = none) ∧
      (∀ pa, evJoinA.pi = some pa → evJoinB.pi = none →
        evJoinC.pi = some (applyPerm (argsort ([1, 2] ++ to'))
          (pa ++ zerosQ ([3] : List ℚ).length))) ∧
      (∀ pb, evJoinA.pi = none → evJoinB.pi = some pb →
        evJoinC.pi = some (applyPerm (argsort ([1, 2] ++ to'))
          (zerosQ ([1, 2] : List ℚ).length ++ pb))) ∧
      (∀ pa pb, evJoinA.pi = some pa → evJoinB.pi = some pb →
        evJoinC.pi = some (applyPerm (argsort ([1, 2] ++ to'))
          (pa ++ pb))) ∧
      (evJoinA.energy = none → evJoinB.energy = none →
        evJoinC.energy = none) ∧
      (∀ ea, evJoinA.energy = some ea → evJoinB.energy = none →
        evJoinC.energy = some (applyPerm (argsort ([1, 2] ++ to'))
          (ea ++ zerosQ ([3] : List ℚ).length))) ∧
      (∀ eb, evJoinA.energy = none → evJoinB.energy = some eb →
        evJoinC.energy = some (applyPerm (argsort ([1, 2] ++ to'))
          (zerosQ ([1, 2] : List ℚ).length ++ eb))) ∧
      (∀ ea eb, evJoinA.energy = some ea → evJoinB.energy = some eb →
        evJoinC.energy = some (applyPerm (argsort ([1, 2] ++ to'))
          (ea ++ eb))) :=
  claim_C4_join_zero_default_attrs evJoinA evJoinB [1, 2] [3] rfl rfl
    _ _ _ _ evJoin_eval

/-- The helper `joinOtherFilled` only ever touches `time`. -/
theorem joinOtherFilled_fields (a b : EventList) :
    (joinOtherFilled a b).pi = b.pi ∧
    (joinOtherFilled a b).energy = b.energy ∧
    (joinOtherFilled a b).dt = b.dt ∧
    (joinOtherFilled a b).gti = b.gti := by
  unfold joinOtherFilled
  refine ⟨?_, ?_, ?_, ?_⟩ <;>
    simp [apply_ite EventList.pi, apply_ite EventList.energy,
      apply_ite EventList.dt, apply_ite EventList.gti]

/-- General properties of the reconciled `other` (no assumption on the
`time` attributes): non-time attributes are `b`'s; closeness means no
change at all; a failed closeness test forces `b.gti` to be present (else
the shift raises and `join` with it). -/
theorem joinReconciled_fields (a b ot : EventList)
    (hrec : joinReconciled a b = some ot) :
    ot.pi = b.pi ∧ ot.energy = b.energy ∧ ot.dt = b.dt ∧
    (ot.gti = none ↔ b.gti = none) ∧
    (npIsClose a.mjdref b.mjdref = true → ot = joinOtherFilled a b) ∧
    (npIsClose a.mjdref b.mjdref = false → b.gti ≠ none) ∧
    (∀ tb', (joinOtherFilled a b).time = some tb' →
      ∃ to', ot.time = some to' ∧ to'.length = tb'.length ∧
        (npIsClose a.mjdref b.mjdref = true → to' = tb')) := by
  obtain ⟨hfp, hfe, hfd, hfg⟩ := joinOtherFilled_fields a b
  unfold joinReconciled at hrec
  by_cases hclose : npIsClose a.mjdref b.mjdref = true
  · rw [if_pos hclose, Option.some_inj] at hrec
    subst hrec
    exact ⟨hfp, hfe, hfd, by rw [hfg], fun _ => rfl,
      fun hf => absurd hclose (by rw [hf]; exact Bool.false_ne_true),
      fun tb' htb' => ⟨tb', htb', rfl, fun _ => rfl⟩⟩
  · rw [if_neg hclose] at hrec
    unfold EventList.change_mjdref EventList.shift at hrec
    rcases hft : (joinOtherFilled a b).time with - | tf
    · rw [hft] at hrec
      exact absurd hrec (by simp)
    · rcases hfgt : (joinOtherFilled a b).gti with - | gf
      · rw [hft, hfgt] at hrec
        exact absurd hrec (by simp)
      · rw [hft, hfgt] at hrec
        simp only [Option.map_some', Option.some_inj] at hrec
        subst hrec
        rw [Bool.not_eq_true] at hclose
        refine ⟨hfp, hfe, hfd, ?_, fun hc => absurd hc (by rw [hclose]; exact
          Bool.false_ne_true), fun _ => by rw [← hfg, hfgt]; simp, ?_⟩
        · rw [← hfg, hfgt]
          simp
        · intro tb' htb'
          obtain rfl : tf = tb' := Option.some_inj.mp htb'
          exact ⟨_, rfl, by simp, fun hc => absurd hc (by rw [hclose]; exact
            Bool.false_ne_true)⟩

/-- Inversion of a successful `join` when at least one input carries
timestamps. -/
theorem join_some_inv_any (a b : EventList)
    (hnb : ¬(a.time = none ∧ b.time = none))
    {c af bf : EventList} {w : List String}
    (hj : a.join b = some (c, af, bf, w)) :
    ∃ ot ta to' otf wcore,
      (joinSelfFilled a).time = some ta ∧
      joinReconciled a b = some ot ∧ ot.time = some to' ∧
      joinCore (joinSelfFilled a) ot (joinDtEv a b) ta to' =
        some (c, af, otf, wcore) ∧
      bf = (if npIsClose a.mjdref b.mjdref = true then otf
        else joinOtherFilled a b) := by
  unfold EventList.join at hj
  rw [if_neg hnb] at hj
  rcases hrec : joinReconciled a b with - | ot
  · rw [hrec] at hj
    exact absurd hj (by simp)
  · rw [hrec] at hj
    simp only [] at hj
    rcases hat : (joinSelfFilled a).time with - | ta
    · rw [hat] at hj
      exact absurd hj (by simp)
    · rw [hat] at hj
      rcases hot : ot.time with - | to'
      · rw [hot] at hj
        exact absurd hj (by simp)
      · rw [hot] at hj
        simp only [Option.map_eq_some'] at hj
        obtain ⟨⟨c', af', otf, wcore⟩, hcore, heq⟩ := hj
        dsimp only at heq
        injection heq with h1 heq
        injection heq with h2 heq
        injection heq with h3 h4
        subst h1
        subst h2
        subst h3
        exact ⟨ot, ta, to', otf, wcore, rfl, rfl, hot, hcore, rfl⟩

theorem joinSelfFilled_of_some (a : EventList) {ta : List ℚ}
    (hta : a.time = some ta) : joinSelfFilled a = a := by
  unfold joinSelfFilled
  rw [hta]
  simp

theorem joinSelfFilled_gti (a : EventList) :
    (joinSelfFilled a).gti = a.gti := by
  unfold joinSelfFilled
  simp [apply_ite EventList.gti]

theorem joinSelfFilled_time_none (a : EventList) (h : a.time = none) :
    (joinSelfFilled a).time = some [] := by
  unfold joinSelfFilled
  rw [h]
  simp

theorem joinOtherFilled_of_some (a b : EventList) {tb : List ℚ}
    (htb : b.time = some tb) : joinOtherFilled a b = b := by
  unfold joinOtherFilled
  rw [htb]
  by_cases h : a.time = none <;> simp [h]

theorem joinOtherFilled_fill (a b : EventList) (ha : a.time ≠ none)
    (hb : b.time = none) :
    joinOtherFilled a b = { b with time := some [] } := by
  unfold joinOtherFilled
  rw [hb]
  simp [ha]

/-- C10.  `join` mutates its inputs: a missing `pi`/`energy` on A is
zero-filled in place when B carries one; a missing GTI is replaced by the
synthesized bounding interval `[t₀ - dt/2, t_last + dt/2]` — on B this is
caller-visible exactly in the cases where `join` returns (when an epoch
shift rebinds the local `other` with `B.gti` absent, the shift itself
raises); and a missing `time` on exactly one side is replaced by an empty
array. -/
theorem claim_C10_join_mutates_inputs (a b c af bf : EventList)
    (w : List String) (hj : a.join b = some (c, af, bf, w)) :
    (∀ ta, a.time = some ta → a.pi = none → b.pi ≠ none →
      af.pi = some (zerosQ ta.length)) ∧
    (∀ ta, a.time = some ta → a.energy = none → b.energy ≠ none →
      af.energy = some (zerosQ ta.length)) ∧
    (∀ ta, a.time = some ta → ta ≠ [] → a.gti = none → b.gti ≠ none →
      af.gti = some [(ta.headD 0 - a.dt / 2, ta.getLastD 0 + a.dt / 2)]) ∧
    (∀ tb, b.time = some tb → tb ≠ [] → b.gti = none → a.gti ≠ none →
      bf.gti = some [(tb.headD 0 - b.dt / 2, tb.getLastD 0 + b.dt / 2)]) ∧
    (a.time = none → b.time ≠ none → af.time = some []) ∧
    (b.time = none → a.time ≠ none → bf.time = some []) := by
  refine ⟨?_, ?_, ?_, ?_, ?_, ?_⟩
  · intro ta0 hta hpa hpb
    obtain ⟨ot, ta, to', otf, wcore, hat, hrec, hot, hcore, hbf⟩ :=
      join_some_inv_any a b (by rw [hta]; simp) hj
    have ha1 := joinSelfFilled_of_some a hta
    rw [ha1] at hat hcore
    obtain rfl : ta0 = ta := by
      rw [hta] at hat
      exact Option.some_inj.mp hat
    obtain ⟨hotpi, -, -, -, -, -, -⟩ := joinReconciled_fields a b ot hrec
    obtain ⟨-, -, -, -, -, -, -, -, -, hafpi, -⟩ :=
      joinCore_fields a ot (joinDtEv a b) ta0 to' hcore
    rw [hafpi, if_pos ⟨hpa, by rw [hotpi]; exact hpb⟩]
  · intro ta0 hta hea heb
    obtain ⟨ot, ta, to', otf, wcore, hat, hrec, hot, hcore, hbf⟩ :=
      join_some_inv_any a b (by rw [hta]; simp) hj
    have ha1 := joinSelfFilled_of_some a hta
    rw [ha1] at hat hcore
    obtain rfl : ta0 = ta := by
      rw [hta] at hat
      exact Option.some_inj.mp hat
    obtain ⟨-, hoten, -, -, -, -, -⟩ := joinReconciled_fields a b ot hrec
    obtain ⟨-, -, -, -, -, -, -, -, -, -, hafen, -⟩ :=
      joinCore_fields a ot (joinDtEv a b) ta0 to' hcore
    rw [hafen, if_pos ⟨hea, by rw [hoten]; exact heb⟩]
  · intro ta0 hta hne hga hgb
    obtain ⟨ot, ta, to', otf, wcore, hat, hrec, hot, hcore, hbf⟩ :=
      join_some_inv_any a b (by rw [hta]; simp) hj
    have ha1 := joinSelfFilled_of_some a hta
    rw [ha1] at hat hcore
    obtain rfl : ta0 = ta := by
      rw [hta] at hat
      exact Option.some_inj.mp hat
    obtain ⟨-, -, -, hgiff, -, -, -⟩ := joinReconciled_fields a b ot hrec
    obtain ⟨-, -, -, -, -, -, -, -, -, -, -, hafgti, -⟩ :=
      joinCore_fields a ot (joinDtEv a b) ta0 to' hcore
    rw [hafgti, if_pos ⟨hga, fun hn => hgb (hgiff.mp hn), hne⟩]
  · intro tb0 htb hne hgb hga
    obtain ⟨ot, ta, to', otf, wcore, hat, hrec, hot, hcore, hbf⟩ :=
      join_some_inv_any a b (by rw [htb]; simp) hj
    obtain ⟨-, -, hotdt, hgiff, hclose_eq, hfalse, -⟩ :=
      joinReconciled_fields a b ot hrec
    obtain ⟨-, -, -, -, -, -, -, -, -, -, -, hafgti, -, -, -, hotfgti,
      hotft, -⟩ := joinCore_fields (joinSelfFilled a) ot (joinDtEv a b)
        ta to' hcore
    rcases hcl : npIsClose a.mjdref b.mjdref with - | -
    · exact absurd hgb (hfalse hcl)
    · have hof := joinOtherFilled_of_some a b htb
      have hotb : ot = b := by rw [hclose_eq hcl, hof]
      subst hotb
      rw [if_pos hcl] at hbf
      subst hbf
      obtain rfl : tb0 = to' := by
        rw [htb] at hot
        exact Option.some_inj.mp hot
      have hafne : af.gti ≠ none := by
        rw [hafgti]
        split
        · simp
        · rw [joinSelfFilled_gti a]
          exact hga
      rw [hotfgti, if_pos ⟨hgb, hafne, hne⟩]
  · intro hta hbt
    obtain ⟨ot, ta, to', otf, wcore, hat, hrec, hot, hcore, hbf⟩ :=
      join_some_inv_any a b (by rw [hta]; simp [hbt]) hj
    obtain ⟨-, -, -, -, -, -, -, -, -, -, -, -, haft, -⟩ :=
      joinCore_fields (joinSelfFilled a) ot (joinDtEv a b) ta to' hcore
    rw [haft, joinSelfFilled_time_none a hta]
  · intro hbt hat0
    obtain ⟨ot, ta, to', otf, wcore, hat, hrec, hot, hcore, hbf⟩ :=
      join_some_inv_any a b (by simp [hbt, hat0]) hj
    have hof := joinOtherFilled_fill a b hat0 hbt
    obtain ⟨-, -, -, -, hclose_eq, -, -⟩ :=
      joinReconciled_fields a b ot hrec
    obtain ⟨-, -, -, -, -, -, -, -, -, -, -, -, -, -, -, -, hotft, -⟩ :=
      joinCore_fields (joinSelfFilled a) ot (joinDtEv a b) ta to' hcore
    rcases hcl : npIsClose a.mjdref b.mjdref with - | -
    · rw [if_neg (by rw [hcl]; exact Bool.false_ne_true)] at hbf
      subst hbf
      rw [hof]
    · rw [if_pos hcl] at hbf
      subst hbf
      rw [hotft, hclose_eq hcl, hof]

/-- Concrete pair for the C10 witness: A lacks `pi`, B lacks `energy`,
both carry the same GTIs and epoch. -/
def evMutA : EventList :=
  { emptyEv with
    time := some [1, 2],
    energy := some [4, 5],
    gti := some [(0, 3)] }

def evMutB : EventList :=
  { emptyEv with
    time := some [3],
    pi := some [5],
    gti := some [(0, 3)] }

/-- Concrete evaluation of `join` on the mutation pair: A's missing `pi`
is zero-filled in place, B's missing `energy` likewise (B is not rebound,
so the caller sees it). -/
theorem evMut_eval : evMutA.join evMutB = some
    ({ emptyEv with
        time := some [1, 2, 3],
        pi := some [0, 0, 5],
        energy := some [4, 5, 0],
        gti := some [(0, 3)] },
     { evMutA with pi := some [0, 0] },
     { evMutB with energy := some [0] },
     []) := by
  have hcl : npIsClose evMutA.mjdref evMutB.mjdref = true :=
    npIsClose_same 0
  unfold EventList.join joinReconciled
  simp only [hcl, if_true]
  decide

/-- Witness for C10 at the mutation pair. -/
theorem claim_C10_join_mutates_inputs_witness :
    (∀ ta, evMutA.time = some ta → evMutA.pi = none → evMutB.pi ≠ none →
      ({ evMutA with pi := some [0, 0] } : EventList).pi =
        some (zerosQ ta.length)) ∧
    (∀ ta, evMutA.time = some ta → evMutA.energy = none →
      evMutB.energy ≠ none →
      ({ evMutA with pi := some [0, 0] } : EventList).energy =
        some (zerosQ ta.length)) ∧
    (∀ ta, evMutA.time = some ta → ta ≠ [] → evMutA.gti = none →
      evMutB.gti ≠ none →
      ({ evMutA with pi := some [0, 0] } : EventList).gti =
        some [(ta.headD 0 - evMutA.dt / 2, ta.getLastD 0 + evMutA.dt / 2)]) ∧
    (∀ tb, evMutB.time = some tb → tb ≠ [] → evMutB.gti = none →
      evMutA.gti ≠ none →
      ({ evMutB with energy := some [0] } : EventList).gti =
        some [(tb.headD 0 - evMutB.dt / 2, tb.getLastD 0 + evMutB.dt / 2)]) ∧
    (evMutA.time = none → evMutB.time ≠ none →
      ({ evMutA with pi := some [0, 0] } : EventList).time = some []) ∧
    (evMutB.time = none → evMutA.time ≠ none →
      ({ evMutB with energy := some [0] } : EventList).time = some []) :=
  claim_C10_join_mutates_inputs evMutA evMutB _ _ _ _ evMut_eval

/-- Concrete pair falsifying C1 as stated: identical GTIs, epochs a full
day apart. -/
def evC1A : EventList :=
  { emptyEv with
    time := some [0],
    gti := some [(0, 1)] }

def evC1B : EventList :=
  { emptyEv with
    time := some [0],
    gti := some [(0, 1)],
    mjdref := 1 }

/-- B after epoch reconciliation onto A's epoch: everything time-valued is
shifted by one day. -/
def evC1Bs : EventList :=
  { emptyEv with
    time := some [86400],
    gti := some [(86400, 86401)] }

theorem evC1_notclose : npIsClose evC1A.mjdref evC1B.mjdref = false := by
  show npIsClose 0 1 = false
  unfold npIsClose
  rw [decide_eq_false_iff_not]
  norm_num

theorem evC1_change : (joinOtherFilled evC1A evC1B).change_mjdref
    evC1A.mjdref = some evC1Bs := by
  have hof : joinOtherFilled evC1A evC1B = evC1B := rfl
  rw [hof]
  unfold EventList.change_mjdref EventList.shift
  show (some _).map _ = _
  simp only [Option.map_some', Option.some_inj]
  norm_num [evC1A, evC1B, evC1Bs, emptyEv]

/-- Concrete evaluation of `join` on the epoch-shifted pair. -/
theorem evC1_eval : evC1A.join evC1B = some
    ({ emptyEv with
        time := some [0, 86400],
        gti := some [(0, 1), (86400, 86401)] },
     evC1A, evC1B, ["gti-no-overlap"]) := by
  unfold EventList.join joinReconciled
  simp only [evC1_notclose, Bool.false_eq_true, if_false, evC1_change]
  decide

/-- C1, counterexample.  With both GTI attributes present but the epochs
a day apart, `join` first shifts B's GTIs onto A's epoch: the two
identical interval sets overlap, so the claim requires the interval-wise
intersection `[[0,1]]`, yet the code returns `[[0,1],[86400,86401]]` —
neither the intersection nor the sorted concatenation of the two inputs'
GTIs as given. -/
theorem claim_C1_counterexample :
    (joinResult evC1A evC1B).map (fun r => r.gti) =
      some (some [(0, 1), (86400, 86401)]) ∧
    check_separate [(0, 1)] [(0, 1)] = false ∧
    cross_two_gtis [(0, 1)] [(0, 1)] = [(0, 1)] ∧
    some ([(0, 1), (86400, 86401)] : List (ℚ × ℚ)) ≠
      some (cross_two_gtis [(0, 1)] [(0, 1)]) ∧
    some ([(0, 1), (86400, 86401)] : List (ℚ × ℚ)) ≠
      some (append_gtis [(0, 1)] [(0, 1)]) := by
  refine ⟨?_, by decide, by decide, by decide, by decide⟩
  unfold joinResult
  rw [evC1_eval]
  rfl

/-- The spec's concrete scenario for C1. -/
def evC1ScA : EventList :=
  { emptyEv with
    time := some [1, 2, 3],
    gti := some [(0, 4)] }

def evC1ScB : EventList :=
  { emptyEv with
    time := some [10, 11],
    gti := some [(9, 12)] }

theorem evC1Sc_eval : evC1ScA.join evC1ScB = some
    ({ emptyEv with
        time := some [1, 2, 3, 10, 11],
        gti := some [(0, 4), (9, 12)] },
     evC1ScA, evC1ScB, ["gti-no-overlap"]) := by
  have hcl : npIsClose evC1ScA.mjdref evC1ScB.mjdref = true :=
    npIsClose_same 0
  unfold EventList.join joinReconciled
  simp only [hcl, if_true]
  decide

/-- C1, amended.  For event lists with both GTI attributes present whose
epochs are within the code's closeness tolerance (so that B is not
shifted): if the GTI sets are disjoint, `join(A,B).gti` is the sorted
concatenation of `A.gti` and `B.gti` (both windows preserved verbatim up
to ordering), with a warning; if they overlap, it is their interval-wise
intersection and every interval of the result is contained in some
interval of each input.  When the epochs differ beyond tolerance the same
holds for B's GTIs shifted onto A's epoch.  The spec's concrete scenario
behaves as claimed. -/
theorem claim_C1_join_gti (a b : EventList) (ta tb : List ℚ)
    (ga gb : List (ℚ × ℚ)) (hta : a.time = some ta)
    (htb : b.time = some tb) (hga : a.gti = some ga)
    (hgb : b.gti = some gb)
    (hclose : npIsClose a.mjdref b.mjdref = true)
    (c af bf : EventList) (w : List String)
    (hj : a.join b = some (c, af, bf, w)) :
    ((check_separate ga gb = true →
      c.gti = some (append_gtis ga gb) ∧
      List.Perm (append_gtis ga gb) (ga ++ gb) ∧
      List.Sorted gtiStartLe (append_gtis ga gb) ∧
      "gti-no-overlap" ∈ w) ∧
    (check_separate ga gb = false →
      c.gti = some (cross_two_gtis ga gb) ∧
      ∀ g ∈ cross_two_gtis ga gb,
        (∃ p ∈ ga, p.1 ≤ g.1 ∧ g.2 ≤ p.2) ∧
        (∃ p ∈ gb, p.1 ≤ g.1 ∧ g.2 ≤ p.2))) ∧
    (joinResult evC1ScA evC1ScB).map (fun r => (r.time, r.gti)) =
      some (some [1, 2, 3, 10, 11], some [(0, 4), (9, 12)]) := by
  obtain ⟨ot, to', otf, wcore, hrec, hot, hcore, hbf, hw⟩ :=
    join_some_inv a b ta tb hta htb hj
  obtain ⟨-, -, -, -, -, -, -, -, to'', hot'', hlen, hcl⟩ :=
    joinReconciled_inv a b ta tb hta htb ot hrec
  obtain ⟨hotb, -⟩ := hcl hclose
  rw [hotb] at hcore
  obtain ⟨-, -, -, -, -, -, -, -, -, -, -, hafgti, -, -, -, hotfgti, -,
    -, -, hcgti, hwcore, -, -⟩ :=
    joinCore_fields a b (joinDtEv a b) ta to' hcore
  have hafg : af.gti = some ga := by
    rw [hafgti, if_neg, hga]
    intro hcon
    rw [hga] at hcon
    exact Option.noConfusion hcon.1
  have hotfg : otf.gti = some gb := by
    rw [hotfgti, if_neg, hgb]
    intro hcon
    rw [hgb] at hcon
    exact Option.noConfusion hcon.1
  rw [hafg, hotfg] at hcgti hwcore
  refine ⟨⟨?_, ?_⟩, ?_⟩
  · intro hsep
    refine ⟨?_, append_gtis_perm ga gb, append_gtis_sorted ga gb, ?_⟩
    · rw [hcgti]
      simp [joinGtiCombine, hsep]
    · rw [hw, hwcore]
      simp [joinGtiCombine, hsep]
  · intro hsep
    refine ⟨?_, ?_⟩
    · rw [hcgti]
      simp [joinGtiCombine, hsep]
    · intro g hg
      obtain ⟨-, h1, h2⟩ := cross_two_gtis_subset ga gb g hg
      exact ⟨h1, h2⟩
  · unfold joinResult
    rw [evC1Sc_eval]
    rfl

/-- Witness for C1 (amended) at the spec's concrete disjoint scenario. -/
theorem claim_C1_join_gti_witness :
    ((check_separate [(0, 4)] [(9, 12)] = true →
      ({ emptyEv with
          time := some [1, 2, 3, 10, 11],
          gti := some [(0, 4), (9, 12)] } : EventList).gti =
        some (append_gtis [(0, 4)] [(9, 12)]) ∧
      List.Perm (append_gtis [(0, 4)] [(9, 12)])
        ([(0, 4)] ++ [(9, 12)]) ∧
      List.Sorted gtiStartLe (append_gtis [(0, 4)] [(9, 12)]) ∧
      "gti-no-overlap" ∈ (["gti-no-overlap"] : List String)) ∧
    (check_separate [(0, 4)] [(9, 12)] = false →
      ({ emptyEv with
          time := some [1, 2, 3, 10, 11],
          gti := some [(0, 4), (9, 12)] } : EventList).gti =
        some (cross_two_gtis [(0, 4)] [(9, 12)]) ∧
      ∀ g ∈ cross_two_gtis [(0, 4)] [(9, 12)],
        (∃ p ∈ ([(0, 4)] : List (ℚ × ℚ)), p.1 ≤ g.1 ∧ g.2 ≤ p.2) ∧
        (∃ p ∈ ([(9, 12)] : List (ℚ × ℚ)), p.1 ≤ g.1 ∧ g.2 ≤ p.2))) ∧
    (joinResult evC1ScA evC1ScB).map (fun r => (r.time, r.gti)) =
      some (some [1, 2, 3, 10, 11], some [(0, 4), (9, 12)]) :=
  claim_C1_join_gti evC1ScA evC1ScB [1, 2, 3] [10, 11] [(0, 4)] [(9, 12)]
    rfl rfl rfl rfl (npIsClose_same 0) _ _ _ _ evC1Sc_eval

/-- Epochs a full day apart, far from zero: `np.isclose`'s default
relative tolerance `rtol = 1e-5` swamps the intended 1 µs absolute
tolerance. -/
def evC5A : EventList :=
  { emptyEv with
    time := some [0],
    gti := some [(0, 1)],
    mjdref := 100000 }

def evC5B : EventList :=
  { emptyEv with
    time := some [0],
    gti := some [(0, 1)],
    mjdref := 100001 }

theorem evC5_close : npIsClose evC5A.mjdref evC5B.mjdref = true := by
  show npIsClose 100000 100001 = true
  unfold npIsClose
  rw [decide_eq_true_eq]
  norm_num

/-- C5.  The code comment promises a 1 µs tolerance, but the actual test
is `|a-b| ≤ 1e-6/86400 + 1e-5·|b|` (numpy's default `rtol`): epochs
100000 and 100001 MJD differ by 86400 s ≥ 1 µs, yet are treated as the
same epoch — `join` does not shift B (the merged `time` is `[0, 0]`,
B's timestamp unshifted). -/
theorem claim_C5_epoch_tolerance :
    npIsClose evC5A.mjdref evC5B.mjdref = true ∧
    |evC5A.mjdref - evC5B.mjdref| * 86400 ≥ 1 / 1000000 ∧
    (evC5A.join evC5B).map (fun r => r.1.time) = some (some [0, 0]) := by
  have h2 : |evC5A.mjdref - evC5B.mjdref| * 86400 ≥ 1 / 1000000 := by
    show |(100000 : ℚ) - 100001| * 86400 ≥ 1 / 1000000
    norm_num
  refine ⟨evC5_close, h2, ?_⟩
  unfold EventList.join joinReconciled
  simp only [evC5_close, if_true]
  decide
